import Mathlib

/-!
Shallow embedding of `shared_memory_handler.py`: the name generator, the
process-wide segment registry (local/foreign partitions) together with the
OS-level segment table, the lifecycle operations (`add_shared_memory`,
`get_memory_view`, `_get_shared_memory`, `_cleanup`, `__exit__`), and the
typed-view index arithmetic of `SharedMemoryHandlee.get_at` / `set_at`.

Python integers are `Int`/`Nat`; a Python function that can raise is a
function into a result type carrying the exception kind; dictionaries are
association lists keyed by segment name; the (random) name source is an
explicit stream `Nat → String`; recursion/`while` loops take fuel and report
exhaustion as a distinct `diverge` outcome.
-/

namespace SMH

/-- Exception kinds raised by the Python code. -/
inductive PyErr where
  | valueError
  | fileNotFound
  | keyError
deriving DecidableEq, Repr

/-- Result of a Python call: normal return, raised exception, or fuel
exhaustion of a loop the source runs unboundedly. -/
inductive PyResult (α : Type) where
  | ok (a : α)
  | err (e : PyErr)
  | diverge
deriving DecidableEq, Repr

/-- `MAX_NAME_LENGTH: Final = 30`. -/
def MAX_NAME_LENGTH : Nat := 30

/-- The lookup table of `_random_name`; note the underscore occurs twice
(positions 10 and 37), making 64 entries. -/
def LOOKUP : List Char :=
  "0123456789_ABCDEFGHIJKLMNOPQRSTUVWXYZ_abcdefghijklmnopqrstuvwxyz".toList

/-- The loop of `_random_name`: `rest_length` successive base-64 digits of
`n`, least significant first, mapped through `LOOKUP`. -/
def randomPart : Nat → Nat → List Char
  | 0, _ => []
  | k + 1, n => LOOKUP.getD (n % 64) '?' :: randomPart k (n / 64)

/-- `_random_name()`, with the process name and the 128-bit `uuid4().int`
made explicit arguments.  `rest_length = MAX_NAME_LENGTH - len(process_name)`
is Python arithmetic, but `range` of a negative number is empty, so the
truncated `Nat` subtraction coincides with the source. -/
def random_name (process_name : String) (n : Nat) : String :=
  process_name ++ String.mk (randomPart (MAX_NAME_LENGTH - process_name.length) n)

/-! ## Typed-view index arithmetic (`get_at` / `set_at`) -/

/-- Index normalisation and bounds check of `SharedMemoryHandlee.get_at`:
`if index < 0: index = length - index`, then `if not (0 < index < length)`
raise `IndexError` (modelled as `none`). -/
def get_at_index (length : Nat) (index : Int) : Option Nat :=
  let idx : Int := if index < 0 then (length : Int) - index else index
  if 0 < idx ∧ idx < (length : Int) then some idx.toNat else none

/-- Index normalisation and bounds check of `SharedMemoryHandlee.set_at`:
`if index < 0: index = length - index`, then `if not (0 <= index < length)`
raise `IndexError` (modelled as `none`). -/
def set_at_index (length : Nat) (index : Int) : Option Nat :=
  let idx : Int := if index < 0 then (length : Int) - index else index
  if 0 ≤ idx ∧ idx < (length : Int) then some idx.toNat else none

/-- A bound raw-mode view (`_smh_struct is None`, stride 1): `_smh_length`
and the bytes of the mapped region. -/
structure RawView where
  length : Nat
  data : List Nat
deriving DecidableEq, Repr

/-- Raw-mode `get_at`: after the bounds check, `return self._smh_data[index]`. -/
def RawView.get_at (v : RawView) (index : Int) : Option Nat :=
  match get_at_index v.length index with
  | some i => some (v.data.getD i 0)
  | none => none

/-- Raw-mode `set_at`: after the bounds check,
`self._smh_data[index] = values`. -/
def RawView.set_at (v : RawView) (index : Int) (value : Nat) : Option RawView :=
  match set_at_index v.length index with
  | some i => some { v with data := v.data.set i value }
  | none => none

/-! ## Process state: OS segment table and the two registry partitions -/

/-- State of one process plus the OS segment table, as the module-level
code sees it.  `os` maps a live OS segment name to its identity;
`localSMO` / `globalSMO` are the key/handle pairs of
`local_shared_memory_objects` / `global_shared_memory_objects`; `nextId`
mints identities for freshly created segments; `rng` is the position in the
explicit random-name stream. -/
structure PState where
  os : List (String × Nat)
  localSMO : List (String × Nat)
  globalSMO : List (String × Nat)
  nextId : Nat
  rng : Nat
deriving DecidableEq, Repr

/-- Keys of an association list (the names registered in a dictionary). -/
def keys (l : List (String × Nat)) : List String := l.map Prod.fst

/-- Remove the entry of a key from an association list (dictionary deletion
/ `unlink` of one named OS segment). -/
def removeKey (l : List (String × Nat)) (name : String) : List (String × Nat) :=
  l.filter (fun p => p.1 ≠ name)

/-- The `while name in global_shared_memory_objects or name in
local_shared_memory_objects` loop of `add_shared_memory`: draw names from
the stream until one is registered in neither partition.  Returns the fresh
name and the next stream position, or `none` when fuel runs out. -/
def freshNameLoop (names : Nat → String) (loc glob : List (String × Nat)) :
    Nat → Nat → Option (String × Nat)
  | _, 0 => none
  | k, fuel + 1 =>
    let name := names k
    if (List.lookup name glob).isSome ∨ (List.lookup name loc).isSome then
      freshNameLoop names loc glob (k + 1) fuel
    else
      some (name, k + 1)

/-- `add_shared_memory(size, name=None)`.  The `name` parameter is ignored
by the source (line 79 unconditionally regenerates it), so it is not
modelled.  Behaviour: reject `size <= 0`; draw a name absent from both
partitions; if no OS segment of that name exists, create it, register it
locally and return its name; on an OS-level collision (`FileExistsError`)
attach to the stale segment, close and unlink it, and recurse — the source
does NOT return the recursive call's result, so this path returns `none`
(Python `None`) while keeping the recursive call's state effects. -/
def add_shared_memory (names : Nat → String) :
    Nat → Int → PState → PState × PyResult (Option String)
  | fuel, size, s =>
    if size ≤ 0 then (s, .err .valueError)
    else
      match fuel with
      | 0 => (s, .diverge)
      | fuel + 1 =>
        match freshNameLoop names s.localSMO s.globalSMO s.rng (fuel + 1) with
        | none => (s, .diverge)
        | some (name, rng') =>
          let s1 : PState := { s with rng := rng' }
          match List.lookup name s1.os with
          | none =>
            let id := s1.nextId
            ({ s1 with
                os := (name, id) :: s1.os
                localSMO := (name, id) :: s1.localSMO
                nextId := id + 1 },
              .ok (some name))
          | some _ =>
            let s2 : PState := { s1 with os := removeKey s1.os name }
            match add_shared_memory names fuel size s2 with
            | (s3, .ok _) => (s3, .ok none)
            | (s3, r) => (s3, r)

/-- `get_memory_view(name)`: the local entry's mapping if registered
locally, else the foreign entry's mapping, else a fresh attach recorded as
a new foreign entry; `FileNotFoundError` when no OS segment of that name
exists. -/
def get_memory_view (s : PState) (name : String) : PState × PyResult Nat :=
  match List.lookup name s.localSMO with
  | some v => (s, .ok v)
  | none =>
    match List.lookup name s.globalSMO with
    | some v => (s, .ok v)
    | none =>
      match List.lookup name s.os with
      | some v => ({ s with globalSMO := (name, v) :: s.globalSMO }, .ok v)
      | none => (s, .err .fileNotFound)

/-- `_get_shared_memory(name)`: same lookup order and fresh-attach fallback
as `get_memory_view`, returning the shared-memory object itself. -/
def get_shared_memory (s : PState) (name : String) : PState × PyResult Nat :=
  match List.lookup name s.localSMO with
  | some v => (s, .ok v)
  | none =>
    match List.lookup name s.globalSMO with
    | some v => (s, .ok v)
    | none =>
      match List.lookup name s.os with
      | some v => ({ s with globalSMO := (name, v) :: s.globalSMO }, .ok v)
      | none => (s, .err .fileNotFound)

/-! ## Cleanup and context-manager exit -/

/-- Observable lifecycle calls: `close(name)`, `unlink(name)`, and the
`print(...)` of a non-`FileNotFoundError` failure during cleanup. -/
inductive CEvent where
  | close (name : String)
  | unlink (name : String)
  | printErr (name : String)
deriving DecidableEq, Repr

/-- The segment name an observable lifecycle call refers to. -/
def eventName : CEvent → String
  | .close n => n
  | .unlink n => n
  | .printErr n => n

/-- Fault injected into a `close` call during cleanup: it may succeed,
raise `FileNotFoundError` (segment already gone), or raise any other
exception (e.g. `BufferError` from outstanding exported views). -/
inductive CloseOutcome where
  | ok
  | fnf
  | other
deriving DecidableEq, Repr

/-- First loop of `_cleanup`: every foreign entry gets a `close` call;
`FileNotFoundError` is passed over, any other exception is printed; either
way the loop continues. -/
def cleanupForeign (behav : String → CloseOutcome) :
    List (String × Nat) → List CEvent
  | [] => []
  | (n, _) :: rest =>
    (match behav n with
      | .ok => [.close n]
      | .fnf => [.close n]
      | .other => [.close n, .printErr n]) ++ cleanupForeign behav rest

/-- Second loop of `_cleanup`: every local entry gets a `close` call
followed — when `close` did not raise — by `unlink`, which removes the
segment from the OS table (or raises `FileNotFoundError`, passed over, when
it is already gone).  Returns the OS table after the unlinks and the trace. -/
def cleanupLocal (behav : String → CloseOutcome) :
    List (String × Nat) → List (String × Nat) → List (String × Nat) × List CEvent
  | os, [] => (os, [])
  | os, (n, _) :: rest =>
    match behav n with
    | .ok =>
      let r := cleanupLocal behav (removeKey os n) rest
      (r.1, .close n :: .unlink n :: r.2)
    | .fnf =>
      let r := cleanupLocal behav os rest
      (r.1, .close n :: r.2)
    | .other =>
      let r := cleanupLocal behav os rest
      (r.1, .close n :: .printErr n :: r.2)

/-- `_cleanup()`: close every foreign entry, then close-and-unlink every
local entry; neither loop mutates the registries. -/
def cleanup (behav : String → CloseOutcome) (s : PState) : PState × List CEvent :=
  let trF := cleanupForeign behav s.globalSMO
  let r := cleanupLocal behav s.os s.localSMO
  ({ s with os := r.1 }, trF ++ r.2)

/-- `SharedMemoryHandlee.__exit__`: fetch the segment via
`_get_shared_memory` (which can itself freshly attach), `close` it,
`unlink` it (raising `FileNotFoundError` when already destroyed), then
`del local_shared_memory_objects[name]` (raising `KeyError` when the name
is not registered locally).  Result: final state, outcome, trace of
`close`/`unlink` calls issued. -/
def exit_view (s : PState) (name : String) :
    PState × PyResult Unit × List CEvent :=
  match get_shared_memory s name with
  | (s1, .ok _) =>
    if (List.lookup name s1.os).isSome then
      let s2 : PState := { s1 with os := removeKey s1.os name }
      if (List.lookup name s2.localSMO).isSome then
        ({ s2 with localSMO := removeKey s2.localSMO name },
          .ok (), [.close name, .unlink name])
      else
        (s2, .err .keyError, [.close name, .unlink name])
    else
      (s1, .err .fileNotFound, [.close name])
  | (s1, .err e) => (s1, .err e, [])
  | (s1, .diverge) => (s1, .diverge, [])

/-! ## The typed-view object (`SharedMemoryHandlee`) -/

/-- A compiled `struct.Struct`: all the `SharedMemoryHandlee` code uses of
it is its fixed packed byte size (`.size`). -/
structure StructFmt where
  size : Nat
deriving DecidableEq, Repr

/-- The `__slots__` of a bound `SharedMemoryHandlee`: segment name,
element count, optional record layout (`None` = raw mode), and the mapped
region's handle. -/
structure Handlee where
  name : String
  length : Nat
  struct : Option StructFmt
  data : Nat
deriving DecidableEq, Repr

/-- The `size` property, `self._smh_struct.size * self._smh_length`: in raw
mode `_smh_struct` is `None` and the attribute access raises
(`AttributeError`), modelled as `none`. -/
def Handlee.size (h : Handlee) : Option Nat :=
  h.struct.map (fun st => st.size * h.length)

/-- `SharedMemoryHandlee.__init__(length, struct)`: reject `length <= 0`
with `ValueError`; compute the byte size as `struct.size * length` in
record mode or `length` in raw mode; create the segment through
`add_shared_memory`; bind the mapped region through `get_memory_view`.
When the collision path of `add_shared_memory` returns `None`,
`get_memory_view(None)` reaches `SharedMemory(None, create=False)`, which
raises `ValueError` (a name may be `None` only with `create=True`). -/
def Handlee.init (names : Nat → String) (fuel : Nat) (length : Int)
    (struct : Option StructFmt) (s : PState) : PState × PyResult Handlee :=
  if length ≤ 0 then (s, .err .valueError)
  else
    let size : Int :=
      match struct with
      | some st => (st.size : Int) * length
      | none => length
    match add_shared_memory names fuel size s with
    | (s1, .ok (some name)) =>
      match get_memory_view s1 name with
      | (s2, .ok v) => (s2, .ok ⟨name, length.toNat, struct, v⟩)
      | (s2, .err e) => (s2, .err e)
      | (s2, .diverge) => (s2, .diverge)
    | (s1, .ok none) => (s1, .err .valueError)
    | (s1, .err e) => (s1, .err e)
    | (s1, .diverge) => (s1, .diverge)

/-- The registry partition invariant of one process: a name registered
locally is not registered as foreign. -/
def DisjointReg (s : PState) : Prop :=
  ∀ n ∈ keys s.localSMO, n ∉ keys s.globalSMO

/-! ## Supporting lemmas -/

theorem randomPart_length (k n : Nat) : (randomPart k n).length = k := by
  induction k generalizing n with
  | zero => rfl
  | succ k ih => simp [randomPart, ih]

theorem mem_LOOKUP_of_mem_randomPart {c : Char} {k n : Nat}
    (h : c ∈ randomPart k n) : c ∈ LOOKUP := by
  induction k generalizing n with
  | zero => simp [randomPart] at h
  | succ k ih =>
    simp only [randomPart, List.mem_cons] at h
    rcases h with h | h
    · have hlt : n % 64 < LOOKUP.length := by
        have : n % 64 < 64 := Nat.mod_lt _ (by norm_num)
        simpa [LOOKUP] using this.trans_le (by norm_num [LOOKUP])
      subst h
      rw [List.getD_eq_getElem LOOKUP '?' hlt]
      exact List.getElem_mem hlt
    · exact ih h

theorem LOOKUP_alphabet :
    ∀ c ∈ LOOKUP, c.isDigit ∨ c = '_' ∨ c.isUpper ∨ c.isLower := by decide

theorem lookup_eq_none_iff (l : List (String × Nat)) (n : String) :
    List.lookup n l = none ↔ n ∉ keys l := by
  induction l with
  | nil => simp [keys]
  | cons p rest ih =>
    obtain ⟨k, v⟩ := p
    have hkeys : keys ((k, v) :: rest) = k :: keys rest := rfl
    by_cases h : n = k
    · subst h
      simp [List.lookup, hkeys]
    · have hbeq : (n == k) = false := beq_eq_false_iff_ne.mpr h
      simp [List.lookup, hbeq, hkeys, ih, h]

theorem lookup_isSome_iff (l : List (String × Nat)) (n : String) :
    (List.lookup n l).isSome ↔ n ∈ keys l := by
  rw [Option.isSome_iff_ne_none, ne_eq, lookup_eq_none_iff, not_not]

theorem mem_keys_removeKey (l : List (String × Nat)) (name n : String)
    (h : n ∈ keys (removeKey l name)) : n ∈ keys l := by
  simp only [keys, removeKey, List.mem_map] at h ⊢
  obtain ⟨p, hp, rfl⟩ := h
  exact ⟨p, (List.mem_filter.mp hp).1, rfl⟩

theorem cleanupForeign_closes (behav : String → CloseOutcome)
    (l : List (String × Nat)) :
    ∀ p ∈ l, CEvent.close p.1 ∈ cleanupForeign behav l := by
  induction l with
  | nil => simp
  | cons q rest ih =>
    obtain ⟨n, v⟩ := q
    intro p hp
    rcases List.mem_cons.mp hp with rfl | hp
    · cases hb : behav n <;> simp [cleanupForeign, hb]
    · cases hb : behav n <;> simp [cleanupForeign, hb, ih p hp]

theorem cleanupForeign_mem_names (behav : String → CloseOutcome)
    (l : List (String × Nat)) :
    ∀ e ∈ cleanupForeign behav l, eventName e ∈ keys l := by
  induction l with
  | nil => simp [cleanupForeign]
  | cons q rest ih =>
    obtain ⟨n, v⟩ := q
    intro e he
    have hkeys : keys ((n, v) :: rest) = n :: keys rest := rfl
    rw [hkeys, List.mem_cons]
    cases hb : behav n <;>
      simp only [cleanupForeign, hb, List.cons_append, List.nil_append,
        List.mem_cons] at he
    · rcases he with rfl | he
      · exact Or.inl rfl
      · exact Or.inr (ih e he)
    · rcases he with rfl | he
      · exact Or.inl rfl
      · exact Or.inr (ih e he)
    · rcases he with rfl | rfl | he
      · exact Or.inl rfl
      · exact Or.inl rfl
      · exact Or.inr (ih e he)

theorem cleanupForeign_no_unlink (behav : String → CloseOutcome)
    (l : List (String × Nat)) (n : String) :
    CEvent.unlink n ∉ cleanupForeign behav l := by
  induction l with
  | nil => simp [cleanupForeign]
  | cons q rest ih =>
    obtain ⟨m, v⟩ := q
    cases hb : behav m <;> simp [cleanupForeign, hb, ih]

theorem cleanupForeign_print_only (behav : String → CloseOutcome)
    (l : List (String × Nat)) (n : String)
    (h : CEvent.printErr n ∈ cleanupForeign behav l) : behav n = .other := by
  induction l with
  | nil => simp [cleanupForeign] at h
  | cons q rest ih =>
    obtain ⟨m, v⟩ := q
    cases hb : behav m <;> simp [cleanupForeign, hb] at h
    · exact ih h
    · exact ih h
    · rcases h with rfl | h
      · exact hb
      · exact ih h

theorem cleanupForeign_print_mem (behav : String → CloseOutcome)
    (l : List (String × Nat)) :
    ∀ p ∈ l, behav p.1 = .other → CEvent.printErr p.1 ∈ cleanupForeign behav l := by
  induction l with
  | nil => simp
  | cons q rest ih =>
    obtain ⟨n, v⟩ := q
    intro p hp hother
    rcases List.mem_cons.mp hp with rfl | hp
    · simp [cleanupForeign, hother]
    · cases hb : behav n <;> simp [cleanupForeign, hb, ih p hp hother]

theorem cleanupLocal_closes (behav : String → CloseOutcome) :
    ∀ (loc os : List (String × Nat)), ∀ p ∈ loc,
      CEvent.close p.1 ∈ (cleanupLocal behav os loc).2 := by
  intro loc
  induction loc with
  | nil => simp
  | cons q rest ih =>
    obtain ⟨n, v⟩ := q
    intro os p hp
    rcases List.mem_cons.mp hp with rfl | hp
    · cases hb : behav n <;> simp [cleanupLocal, hb]
    · cases hb : behav n <;> simp [cleanupLocal, hb, ih _ p hp]

theorem cleanupLocal_unlink_of_ok (behav : String → CloseOutcome) :
    ∀ (loc os : List (String × Nat)), ∀ p ∈ loc, behav p.1 = .ok →
      CEvent.unlink p.1 ∈ (cleanupLocal behav os loc).2 := by
  intro loc
  induction loc with
  | nil => simp
  | cons q rest ih =>
    obtain ⟨n, v⟩ := q
    intro os p hp hok
    rcases List.mem_cons.mp hp with rfl | hp
    · simp [cleanupLocal, hok]
    · cases hb : behav n <;> simp [cleanupLocal, hb, ih _ p hp hok]

theorem cleanupLocal_mem_names (behav : String → CloseOutcome) :
    ∀ (loc os : List (String × Nat)), ∀ e ∈ (cleanupLocal behav os loc).2,
      eventName e ∈ keys loc := by
  intro loc
  induction loc with
  | nil => simp [cleanupLocal]
  | cons q rest ih =>
    obtain ⟨n, v⟩ := q
    intro os e he
    have hkeys : keys ((n, v) :: rest) = n :: keys rest := rfl
    rw [hkeys, List.mem_cons]
    cases hb : behav n <;> simp only [cleanupLocal, hb, List.mem_cons] at he
    · rcases he with rfl | rfl | he
      · exact Or.inl rfl
      · exact Or.inl rfl
      · exact Or.inr (ih _ e he)
    · rcases he with rfl | he
      · exact Or.inl rfl
      · exact Or.inr (ih _ e he)
    · rcases he with rfl | rfl | he
      · exact Or.inl rfl
      · exact Or.inl rfl
      · exact Or.inr (ih _ e he)

theorem cleanupLocal_print_only (behav : String → CloseOutcome) :
    ∀ (loc os : List (String × Nat)) (n : String),
      CEvent.printErr n ∈ (cleanupLocal behav os loc).2 → behav n = .other := by
  intro loc
  induction loc with
  | nil => simp [cleanupLocal]
  | cons q rest ih =>
    obtain ⟨m, v⟩ := q
    intro os n h
    cases hb : behav m <;> simp [cleanupLocal, hb] at h
    · exact ih _ n h
    · exact ih _ n h
    · rcases h with rfl | h
      · exact hb
      · exact ih _ n h

theorem cleanupLocal_print_mem (behav : String → CloseOutcome) :
    ∀ (loc os : List (String × Nat)), ∀ p ∈ loc, behav p.1 = .other →
      CEvent.printErr p.1 ∈ (cleanupLocal behav os loc).2 := by
  intro loc
  induction loc with
  | nil => simp
  | cons q rest ih =>
    obtain ⟨n, v⟩ := q
    intro os p hp hother
    rcases List.mem_cons.mp hp with rfl | hp
    · simp [cleanupLocal, hother]
    · cases hb : behav n <;> simp [cleanupLocal, hb, ih _ p hp hother]

theorem cleanupLocal_unlink_mem (behav : String → CloseOutcome) :
    ∀ (loc os : List (String × Nat)) (n : String),
      CEvent.unlink n ∈ (cleanupLocal behav os loc).2 → n ∈ keys loc := by
  intro loc
  induction loc with
  | nil => simp [cleanupLocal]
  | cons q rest ih =>
    obtain ⟨m, v⟩ := q
    intro os n h
    have hkeys : keys ((m, v) :: rest) = m :: keys rest := rfl
    rw [hkeys, List.mem_cons]
    cases hb : behav m <;> simp [cleanupLocal, hb] at h
    · rcases h with rfl | h
      · exact Or.inl rfl
      · exact Or.inr (ih _ n h)
    · exact Or.inr (ih _ n h)
    · exact Or.inr (ih _ n h)

theorem freshNameLoop_fresh (names : Nat → String)
    (loc glob : List (String × Nat)) :
    ∀ (fuel k : Nat) (name : String) (rng' : Nat),
      freshNameLoop names loc glob k fuel = some (name, rng') →
        List.lookup name loc = none ∧ List.lookup name glob = none := by
  intro fuel
  induction fuel with
  | zero =>
    intro k name rng' h
    simp [freshNameLoop] at h
  | succ fuel ih =>
    intro k name rng' h
    unfold freshNameLoop at h
    simp only [] at h
    split at h
    · exact ih (k + 1) name rng' h
    · rename_i hcond
      simp only [Option.some.injEq, Prod.mk.injEq] at h
      obtain ⟨rfl, rfl⟩ := h
      rw [not_or, Option.not_isSome_iff_eq_none, Option.not_isSome_iff_eq_none]
        at hcond
      exact ⟨hcond.2, hcond.1⟩

theorem add_preserves_disjoint (names : Nat → String) :
    ∀ (fuel : Nat) (size : Int) (s : PState), DisjointReg s →
      DisjointReg (add_shared_memory names fuel size s).1 := by
  intro fuel
  induction fuel with
  | zero =>
    intro size s h
    unfold add_shared_memory
    split
    · exact h
    · exact h
  | succ fuel ih =>
    intro size s h
    unfold add_shared_memory
    split
    · exact h
    · rcases hfresh : freshNameLoop names s.localSMO s.globalSMO s.rng (fuel + 1)
        with _ | ⟨name, rng'⟩
      · simp only [hfresh]
        exact h
      · simp only [hfresh]
        obtain ⟨hl, hg⟩ := freshNameLoop_fresh names s.localSMO s.globalSMO
          (fuel + 1) s.rng name rng' hfresh
        rcases hos : List.lookup name s.os with _ | v
        · simp only [hos]
          intro n hn
          have hkeys : keys ((name, s.nextId) :: s.localSMO)
              = name :: keys s.localSMO := rfl
          rw [hkeys, List.mem_cons] at hn
          rcases hn with rfl | hn
          · exact (lookup_eq_none_iff s.globalSMO n).mp hg
          · exact h n hn
        · simp only [hos]
          rcases hrec : add_shared_memory names fuel size
              ⟨removeKey s.os name, s.localSMO, s.globalSMO, s.nextId, rng'⟩
            with ⟨s3, r⟩
          have h3 : DisjointReg s3 := by
            have := ih size
              ⟨removeKey s.os name, s.localSMO, s.globalSMO, s.nextId, rng'⟩ h
            rw [hrec] at this
            exact this
          cases r
          · simp only [hrec]
            exact h3
          · simp only [hrec]
            exact h3
          · simp only [hrec]
            exact h3

theorem get_memory_view_disjoint (s : PState) (name : String)
    (h : DisjointReg s) : DisjointReg (get_memory_view s name).1 := by
  unfold get_memory_view
  rcases hl : List.lookup name s.localSMO with _ | v
  · rcases hg : List.lookup name s.globalSMO with _ | v
    · rcases ho : List.lookup name s.os with _ | v
      · exact h
      · intro n hn
        have hkeys : keys ((name, v) :: s.globalSMO)
            = name :: keys s.globalSMO := rfl
        rw [hkeys, List.mem_cons]
        rintro (rfl | hmem)
        · exact (lookup_eq_none_iff s.localSMO n).mp hl hn
        · exact h n hn hmem
    · exact h
  · exact h

theorem get_shared_memory_disjoint (s : PState) (name : String)
    (h : DisjointReg s) : DisjointReg (get_shared_memory s name).1 := by
  unfold get_shared_memory
  rcases hl : List.lookup name s.localSMO with _ | v
  · rcases hg : List.lookup name s.globalSMO with _ | v
    · rcases ho : List.lookup name s.os with _ | v
      · exact h
      · intro n hn
        have hkeys : keys ((name, v) :: s.globalSMO)
            = name :: keys s.globalSMO := rfl
        rw [hkeys, List.mem_cons]
        rintro (rfl | hmem)
        · exact (lookup_eq_none_iff s.localSMO n).mp hl hn
        · exact h n hn hmem
    · exact h
  · exact h

theorem exit_view_disjoint (s : PState) (name : String)
    (h : DisjointReg s) : DisjointReg (exit_view s name).1 := by
  unfold exit_view
  rcases hg : get_shared_memory s name with ⟨s1, r⟩
  have hs1 : DisjointReg s1 := by
    have := get_shared_memory_disjoint s name h
    rw [hg] at this
    exact this
  cases r with
  | ok v =>
    simp only []
    split
    · split
      · intro n hn
        exact hs1 n (mem_keys_removeKey s1.localSMO name n hn)
      · exact hs1
    · exact hs1
  | err e => exact hs1
  | diverge => exact hs1

/-! ## Claims -/

/-- C1: on a bound raw view of element count 3, `get(-1)` does NOT return
`get(2)`'s value: the source computes `index = length - index` (instead of
`length + index`) for a negative index, lands on `length + 1`, and raises
`IndexError`, while `get(2)` returns the stored byte; `set(-1, v)` raises
likewise.  This is the claim C1 evaluated at its failing input. -/
theorem get_at_neg_one_raises_IndexError :
    (RawView.mk 3 [10, 11, 12]).get_at (-1) = none ∧
    (RawView.mk 3 [10, 11, 12]).get_at 2 = some 12 ∧
    (RawView.mk 3 [10, 11, 12]).set_at (-1) 7 = none ∧
    (RawView.mk 3 [10, 11, 12]).get_at 3 = none ∧
    (RawView.mk 3 [10, 11, 12]).get_at (-4) = none := by decide

/-- C2: on a bound raw view of element count 3, index 0 is valid
(`0 ≤ 0 < 3`) and `set(0, 7)` succeeds, but the subsequent `get(0)` raises
`IndexError` because `get_at` checks `0 < index` instead of `0 <= index`:
the set/get round trip of claim C2 fails at the valid index 0. -/
theorem set_then_get_at_zero_raises :
    (RawView.mk 3 [0, 0, 0]).set_at 0 7 = some (RawView.mk 3 [7, 0, 0]) ∧
    (RawView.mk 3 [7, 0, 0]).get_at 0 = none := by decide

/-- C5 (counterexample): for a process whose name has 31 characters the
generator returns the bare process name, a string of 31 characters, not
`MAX_NAME_LENGTH`. -/
theorem random_name_long_process_name_not_30 :
    (random_name "AAAAAAAAAAAAAAAAAAAAAAAAAAAAAAA" 0).length ≠ MAX_NAME_LENGTH := by
  decide

/-- C5 (amended): whenever the current process's name has at most
`MAX_NAME_LENGTH` characters, the generated name has exactly
`MAX_NAME_LENGTH` characters and consists of the process name followed by
characters drawn from the 64-entry table of digits, underscore and upper-
and lower-case letters. -/
theorem random_name_spec (pn : String) (n : Nat)
    (h : pn.length ≤ MAX_NAME_LENGTH) :
    (random_name pn n).length = MAX_NAME_LENGTH ∧
    (random_name pn n).toList.take pn.length = pn.toList ∧
    ∀ c ∈ (random_name pn n).toList.drop pn.length,
      c.isDigit ∨ c = '_' ∨ c.isUpper ∨ c.isLower := by
  have hdata : (random_name pn n).toList
      = pn.toList ++ randomPart (MAX_NAME_LENGTH - pn.length) n := by
    simp [random_name, String.toList, String.data_append]
  have hlenpn : pn.toList.length = pn.length := rfl
  refine ⟨?_, ?_, ?_⟩
  · have : (random_name pn n).length = (random_name pn n).toList.length := rfl
    rw [this, hdata, List.length_append, hlenpn, randomPart_length]
    omega
  · rw [hdata, ← hlenpn, List.take_left]
  · intro c hc
    rw [hdata, ← hlenpn, List.drop_left] at hc
    exact LOOKUP_alphabet c (mem_LOOKUP_of_mem_randomPart hc)

/-- C5 (witness): at the concrete process name `MainProcess` and random
value 0, the hypothesis holds and the generated name has length 30. -/
theorem random_name_spec_witness :
    ("MainProcess".length ≤ MAX_NAME_LENGTH) ∧
    (random_name "MainProcess" 0).length = MAX_NAME_LENGTH :=
  ⟨by decide, (random_name_spec "MainProcess" 0 (by decide)).1⟩

/-- C4: when the generated name `X0` collides with a stale OS segment, the
`FileExistsError` handler reclaims the stale segment, retries, and the
retry succeeds — a fresh segment `X1` is created and registered locally —
but the call returns `None` (the handler never returns the recursive
call's result), not the new segment's name: the recovery happens, yet the
caller does not receive the name the claim promises. -/
theorem add_shared_memory_collision_returns_none :
    add_shared_memory (fun k => ["X0", "X1"].getD k "Z") 3 4
        ⟨[("X0", 99)], [], [], 0, 0⟩
      = (⟨[("X1", 0)], [("X1", 0)], [], 1, 2⟩, .ok none) := by decide

/-- C8: `add_shared_memory` rejects a non-positive size with `ValueError`
before touching the OS segment table or either registry partition (the
returned state is exactly the input state), and
`SharedMemoryHandlee.__init__` rejects a non-positive length the same way. -/
theorem create_rejects_nonpositive_size (names : Nat → String) (fuel : Nat)
    (size : Int) (s : PState) (hsize : size ≤ 0)
    (len : Int) (hlen : len ≤ 0) (struct : Option StructFmt) :
    add_shared_memory names fuel size s = (s, .err .valueError) ∧
    Handlee.init names fuel len struct s = (s, .err .valueError) := by
  constructor
  · unfold add_shared_memory
    simp [hsize]
  · unfold Handlee.init
    simp [hlen]

/-- C8 (witness): at size 0 and length -2 on the empty process state, both
rejections fire and the state is untouched. -/
theorem create_rejects_nonpositive_size_witness :
    add_shared_memory (fun _ => "A") 1 0 ⟨[], [], [], 0, 0⟩
        = (⟨[], [], [], 0, 0⟩, .err .valueError) ∧
    Handlee.init (fun _ => "A") 1 (-2) none ⟨[], [], [], 0, 0⟩
        = (⟨[], [], [], 0, 0⟩, .err .valueError) :=
  create_rejects_nonpositive_size (fun _ => "A") 1 0 ⟨[], [], [], 0, 0⟩
    (by decide) (-2) (by decide) none

/-- C6 (counterexample): when a registered entry is stale — here the
foreign partition still holds `F` although no OS segment named `F` exists,
the state left behind by the context-manager exit of a received view —
`get_memory_view` returns the stale mapping without raising, so "raises
`FileNotFoundError` if and only if no OS segment with that name exists"
fails in the "if" direction. -/
theorem get_memory_view_stale_entry_no_error :
    (get_memory_view ⟨[], [], [("F", 5)], 6, 0⟩ "F").2 = .ok 5 ∧
    List.lookup "F" (⟨[], [], [("F", 5)], 6, 0⟩ : PState).os = none := by decide

/-- C6 (amended): `get_memory_view` returns the local entry's mapping when the name
is registered locally; otherwise the foreign entry's mapping when present;
otherwise it attaches to the OS segment and records a new foreign entry;
and — in any state where every registered name still exists at the OS
level — it raises `FileNotFoundError` exactly when no OS segment of that
name exists. -/
theorem get_memory_view_spec (s : PState) (name : String)
    (hinv : ∀ n ∈ keys s.localSMO ++ keys s.globalSMO, n ∈ keys s.os) :
    (∀ v, List.lookup name s.localSMO = some v →
      get_memory_view s name = (s, .ok v)) ∧
    (List.lookup name s.localSMO = none →
      ∀ v, List.lookup name s.globalSMO = some v →
        get_memory_view s name = (s, .ok v)) ∧
    (List.lookup name s.localSMO = none →
      List.lookup name s.globalSMO = none →
        ∀ v, List.lookup name s.os = some v →
          get_memory_view s name
            = ({ s with globalSMO := (name, v) :: s.globalSMO }, .ok v)) ∧
    ((get_memory_view s name).2 = .err .fileNotFound ↔ name ∉ keys s.os) := by
  refine ⟨?_, ?_, ?_, ?_⟩
  · intro v hv
    simp [get_memory_view, hv]
  · intro h0 v hv
    simp [get_memory_view, h0, hv]
  · intro h0 h1 v hv
    simp [get_memory_view, h0, h1, hv]
  · rcases hl : List.lookup name s.localSMO with _ | v
    · rcases hg : List.lookup name s.globalSMO with _ | v
      · rcases ho : List.lookup name s.os with _ | v
        · simp only [get_memory_view, hl, hg, ho]
          simpa using (lookup_eq_none_iff s.os name).mp ho
        · simp only [get_memory_view, hl, hg, ho]
          have : name ∈ keys s.os := by
            rw [← lookup_isSome_iff, ho]
            rfl
          simp [this]
      · simp only [get_memory_view, hl, hg]
        have : name ∈ keys s.os := by
          apply hinv
          rw [List.mem_append, ← lookup_isSome_iff s.globalSMO, hg]
          exact Or.inr rfl
        simp [this]
    · simp only [get_memory_view, hl]
      have : name ∈ keys s.os := by
        apply hinv
        rw [List.mem_append, ← lookup_isSome_iff s.localSMO, hl]
        exact Or.inl rfl
      simp [this]

/-- C6 (witness): in a concrete state whose registered names all exist at
the OS level, looking up the locally registered name `L` returns its local
mapping and leaves the state unchanged. -/
theorem get_memory_view_spec_witness :
    get_memory_view ⟨[("L", 1), ("F", 2)], [("L", 1)], [("F", 2)], 3, 0⟩ "L"
      = (⟨[("L", 1), ("F", 2)], [("L", 1)], [("F", 2)], 3, 0⟩, .ok 1) :=
  (get_memory_view_spec ⟨[("L", 1), ("F", 2)], [("L", 1)], [("F", 2)], 3, 0⟩
    "L" (by decide)).1 1 (by decide)

/-- C7: `_cleanup` processes the foreign partition first and the local
partition second (the trace splits into a foreign-named part followed by a
local-named part); every foreign entry receives a `close` call and every
local entry a `close` call followed — when `close` succeeded — by an
`unlink` call; a failure is printed exactly when it is not
`FileNotFoundError`; and every entry is processed regardless of earlier
failures (the function always returns, never raises).  The registries are
not mutated. -/
theorem cleanup_spec (behav : String → CloseOutcome) (s : PState) :
    (∃ trF trL, (cleanup behav s).2 = trF ++ trL ∧
      (∀ e ∈ trF, eventName e ∈ keys s.globalSMO) ∧
      (∀ e ∈ trL, eventName e ∈ keys s.localSMO)) ∧
    (∀ p ∈ s.globalSMO, CEvent.close p.1 ∈ (cleanup behav s).2) ∧
    (∀ p ∈ s.localSMO, CEvent.close p.1 ∈ (cleanup behav s).2) ∧
    (∀ p ∈ s.localSMO, behav p.1 = .ok →
      CEvent.unlink p.1 ∈ (cleanup behav s).2) ∧
    (∀ n, CEvent.printErr n ∈ (cleanup behav s).2 → behav n = .other) ∧
    (∀ p ∈ s.globalSMO ++ s.localSMO, behav p.1 = .other →
      CEvent.printErr p.1 ∈ (cleanup behav s).2) ∧
    (cleanup behav s).1.localSMO = s.localSMO ∧
    (cleanup behav s).1.globalSMO = s.globalSMO := by
  have htr : (cleanup behav s).2
      = cleanupForeign behav s.globalSMO
        ++ (cleanupLocal behav s.os s.localSMO).2 := rfl
  refine ⟨⟨_, _, htr, cleanupForeign_mem_names behav s.globalSMO,
      cleanupLocal_mem_names behav s.localSMO s.os⟩,
    ?_, ?_, ?_, ?_, ?_, rfl, rfl⟩
  · intro p hp
    rw [htr, List.mem_append]
    exact Or.inl (cleanupForeign_closes behav s.globalSMO p hp)
  · intro p hp
    rw [htr, List.mem_append]
    exact Or.inr (cleanupLocal_closes behav s.localSMO s.os p hp)
  · intro p hp hok
    rw [htr, List.mem_append]
    exact Or.inr (cleanupLocal_unlink_of_ok behav s.localSMO s.os p hp hok)
  · intro n hn
    rw [htr, List.mem_append] at hn
    rcases hn with hn | hn
    · exact cleanupForeign_print_only behav s.globalSMO n hn
    · exact cleanupLocal_print_only behav s.localSMO s.os n hn
  · intro p hp hother
    rw [htr, List.mem_append]
    rcases List.mem_append.mp hp with hp | hp
    · exact Or.inl (cleanupForeign_print_mem behav s.globalSMO p hp hother)
    · exact Or.inr (cleanupLocal_print_mem behav s.localSMO s.os p hp hother)

/-- C7 (witness): in a state with one foreign entry `F` and one local
entry `L`, with every `close` succeeding, cleanup closes `F` and unlinks
`L`. -/
theorem cleanup_spec_witness :
    CEvent.close "F" ∈
      (cleanup (fun _ => .ok) ⟨[("L", 1), ("F", 2)], [("L", 1)], [("F", 2)], 3, 0⟩).2 ∧
    CEvent.unlink "L" ∈
      (cleanup (fun _ => .ok) ⟨[("L", 1), ("F", 2)], [("L", 1)], [("F", 2)], 3, 0⟩).2 :=
  ⟨(cleanup_spec (fun _ => .ok)
      ⟨[("L", 1), ("F", 2)], [("L", 1)], [("F", 2)], 3, 0⟩).2.1 ("F", 2) (by decide),
   (cleanup_spec (fun _ => .ok)
      ⟨[("L", 1), ("F", 2)], [("L", 1)], [("F", 2)], 3, 0⟩).2.2.2.1 ("L", 1)
      (by decide) rfl⟩

/-- C3 (counterexample): a view bound to the foreign-registered name `F`
(as happens after `__setstate__` reconstructs a received view) issues
`unlink F` on context-manager exit, although `F` is not in the local
partition — the release path then also raises `KeyError` on
`del local_shared_memory_objects[name]`.  This refutes the claim that every
release path unlinks only locally held names. -/
theorem exit_view_unlinks_foreign_name :
    (exit_view ⟨[("F", 5), ("L", 4)], [("L", 4)], [("F", 5)], 6, 0⟩ "F").2.2
        = [CEvent.close "F", CEvent.unlink "F"] ∧
    "F" ∉ keys (⟨[("F", 5), ("L", 4)], [("L", 4)], [("F", 5)], 6, 0⟩ : PState).localSMO ∧
    (exit_view ⟨[("F", 5), ("L", 4)], [("L", 4)], [("F", 5)], 6, 0⟩ "F").2.1
        = .err .keyError := by decide

/-- C3 (amended): the cleanup routine calls `unlink` only for names held
in the local partition; the context-manager exit of a view unlinks only the
view's own name, so it satisfies the claim exactly when that name is in
the local partition (which holds for every view created — rather than
received — in this process). -/
theorem unlink_only_local (behav : String → CloseOutcome) (s : PState)
    (name : String) :
    (∀ n, CEvent.unlink n ∈ (cleanup behav s).2 → n ∈ keys s.localSMO) ∧
    (name ∈ keys s.localSMO →
      ∀ n, CEvent.unlink n ∈ (exit_view s name).2.2 → n ∈ keys s.localSMO) := by
  constructor
  · intro n hn
    have htr : (cleanup behav s).2
        = cleanupForeign behav s.globalSMO
          ++ (cleanupLocal behav s.os s.localSMO).2 := rfl
    rw [htr, List.mem_append] at hn
    rcases hn with hn | hn
    · exact absurd hn (cleanupForeign_no_unlink behav s.globalSMO n)
    · exact cleanupLocal_unlink_mem behav s.localSMO s.os n hn
  · intro hname n hn
    obtain ⟨v, hv⟩ := Option.isSome_iff_exists.mp
      ((lookup_isSome_iff s.localSMO name).mpr hname)
    have hgsm : get_shared_memory s name = (s, .ok v) := by
      simp [get_shared_memory, hv]
    unfold exit_view at hn
    rw [hgsm] at hn
    simp only [] at hn
    split at hn
    · split at hn
      · simp only [List.mem_cons, List.not_mem_nil, or_false] at hn
        rcases hn with hn | hn
        · exact absurd hn (by simp)
        · obtain rfl : n = name := by simpa using hn
          exact hname
      · simp only [List.mem_cons, List.not_mem_nil, or_false] at hn
        rcases hn with hn | hn
        · exact absurd hn (by simp)
        · obtain rfl : n = name := by simpa using hn
          exact hname
    · simp only [List.mem_cons, List.not_mem_nil, or_false] at hn
      exact absurd hn (by simp)

/-- C3 (witness): in a state with one local entry `L`, the cleanup trace's
`unlink L` is indeed of a locally held name. -/
theorem unlink_only_local_witness :
    "L" ∈ keys (⟨[("L", 1)], [("L", 1)], [], 2, 0⟩ : PState).localSMO :=
  (unlink_only_local (fun _ => .ok) ⟨[("L", 1)], [("L", 1)], [], 2, 0⟩ "L").1
    "L" (by decide)

/-- C9: every registry-mutating operation — segment creation
(`add_shared_memory`, including its collision-retry path), lookup with
fresh attach (`get_memory_view`), the exit-cleanup routine, and the
context-manager exit of a view — preserves the invariant that a name is
registered in at most one of the local and foreign partitions. -/
theorem registry_partition_invariant (names : Nat → String) (fuel : Nat)
    (size : Int) (name : String) (behav : String → CloseOutcome) (s : PState)
    (h : DisjointReg s) :
    DisjointReg (add_shared_memory names fuel size s).1 ∧
    DisjointReg (get_memory_view s name).1 ∧
    DisjointReg (cleanup behav s).1 ∧
    DisjointReg (exit_view s name).1 :=
  ⟨add_preserves_disjoint names fuel size s h,
   get_memory_view_disjoint s name h,
   h,
   exit_view_disjoint s name h⟩

/-- C9 (witness): starting from a disjoint state with one OS segment `A`
and empty registries, the state after a lookup of `A` (which attaches `A`
as foreign) still has disjoint partitions. -/
theorem registry_partition_invariant_witness :
    DisjointReg (get_memory_view ⟨[("A", 0)], [], [], 1, 0⟩ "A").1 :=
  (registry_partition_invariant (fun _ => "B") 1 1 "A" (fun _ => .ok)
    ⟨[("A", 0)], [], [], 1, 0⟩
    (by intro n hn; simp [keys] at hn)).2.1

/-- C10: the `size` property multiplies `_smh_struct.size` by the element
count without a `None` check, so on a raw-mode view (`struct = None`) it
raises (`AttributeError`) instead of returning `element_count * 1`; it
succeeds exactly on record-mode views, and a view constructed through
`__init__` in raw mode always has `struct = None`. -/
theorem size_raises_in_raw_mode (h : Handlee) :
    (h.struct = none → h.size = none) ∧
    (∀ st, h.struct = some st → h.size = some (st.size * h.length)) ∧
    (∀ names fuel len s s' hd,
      Handlee.init names fuel len none s = (s', .ok hd) → hd.size = none) := by
  refine ⟨?_, ?_, ?_⟩
  · intro hs; simp [Handlee.size, hs]
  · intro st hs; simp [Handlee.size, hs]
  · intro names fuel len s s' hd hinit
    unfold Handlee.init at hinit
    split at hinit
    · exact absurd (congrArg Prod.snd hinit) (by simp)
    · split at hinit
      · rename_i st heq
        exact absurd heq (by simp)
      · simp only [] at hinit
        split at hinit
        · split at hinit
          · have hhd := congrArg Prod.snd hinit
            simp only [PyResult.ok.injEq] at hhd
            simp [← hhd, Handlee.size]
          · exact absurd (congrArg Prod.snd hinit) (by simp)
          · exact absurd (congrArg Prod.snd hinit) (by simp)
        · exact absurd (congrArg Prod.snd hinit) (by simp)
        · exact absurd (congrArg Prod.snd hinit) (by simp)
        · exact absurd (congrArg Prod.snd hinit) (by simp)

/-- C10 (witness): a raw-mode view of element count 5 constructed by
`__init__` in the empty process state has `size = none`. -/
theorem size_raises_in_raw_mode_witness :
    (Handlee.mk "N" 5 none 0).size = none :=
  (size_raises_in_raw_mode ⟨"N", 5, none, 0⟩).1 rfl

end SMH
